import Mathlib

/-!
Verification of the text shaping, measurement and glyph-rendering pipeline of
`internal/painter/font.go` (package `painter`) together with the face-set
resolver and the two caching layers it uses.

Modelling conventions:

* `float32`/`float64` pixel values are modelled as `ℚ`.  Every arithmetic
  operation the pipeline performs on them (addition of advances, comparison,
  multiplication by small constants, division by the tab width) is exact over
  the rationals; the one inexact operation of the source, conversion of a
  float to an integer (Go truncates toward zero, as does `math.Modf`), is
  modelled explicitly by `ratTrunc`.
* `fixed.Int26_6` (26.6 fixed point) is modelled as `ℤ`, counting 1/64 pixel
  units.  `fixed.I n` is `n * 64`.
* The external go-text shaping engine (`shaping.Segmenter.Split` and
  `shaping.HarfbuzzShaper.Shape`) is an opaque capability, modelled by the
  `ShapeEnv` structure; the pipeline is verified for every environment.
* The glyph-sink callback of `processString` returns nothing in Go and acts
  only by side effects; it is modelled as a state transformer
  `σ → Output F → ℚ → ℚ → σ` so that independence of the returned geometry
  from the callback is a meaningful statement.
* Font faces are an opaque type parameter `F`.  A Go `font.Face` variable that
  may be `nil` is modelled as `Option F`.
-/

namespace Painter

/-- Truncation of a rational toward zero: the behaviour of Go's
float-to-integer conversion and of the integral part returned by
`math.Modf`. -/
def ratTrunc (q : ℚ) : ℤ :=
  if 0 ≤ q then ⌊q⌋ else ⌈q⌉

/-- `DefaultTabWidth` is the default width in spaces (font.go line 24). -/
def DefaultTabWidth : ℤ := 4

/-- `fontTabSpaceSize` (font.go line 26). -/
def fontTabSpaceSize : ℚ := 10

/-- `fixed266ToFloat32` (font.go lines 196-198): `float32(float64(i) / (1<<6))`.
For every value in the 26.6 range the float computation is exact (the
division by 64 only shifts the exponent, and the result is either directly
representable in float32 or equal to the float32 the fixed value came from),
so it is modelled as exact division in `ℚ`. -/
def fixed266ToFloat32 (i : ℤ) : ℚ :=
  (i : ℚ) / 64

/-- `float32ToFixed266` (font.go lines 200-202):
`fixed.Int26_6(float64(f) * (1 << 6))`.  The multiplication by 64 is exact in
float64; the conversion to the integer type truncates toward zero. -/
def float32ToFixed266 (f : ℚ) : ℤ :=
  ratTrunc (f * 64)

/-- `fyne.Size`. -/
structure Size where
  Width : ℚ
  Height : ℚ
deriving DecidableEq

/-- `fyne.NewSize`. -/
def NewSize (w h : ℚ) : Size := ⟨w, h⟩

/-- `fyne.TextStyle`: the style flags and the tab-width override used by this
pipeline (the spec's StyleDescriptor). -/
structure TextStyle where
  Bold : Bool
  Italic : Bool
  Monospace : Bool
  Symbol : Bool
  TabWidth : ℤ
deriving DecidableEq

/-- Writing direction (`di.Direction` of go-text); the zero value is LTR. -/
inductive Direction where
  | LTR
  | RTL
deriving DecidableEq

/-- One shaped glyph; only the glyph identifier is inspected by the pipeline
(`GlyphID == 0` denotes "not found"). -/
structure Glyph where
  GlyphID : ℕ
deriving DecidableEq

/-- `shaping.Bounds`: line bounds of a shaped run, in 26.6 fixed point. -/
structure Bounds where
  Ascent : ℤ
  Descent : ℤ
  Gap : ℤ
deriving DecidableEq

/-- `Bounds.LineThickness` of go-text: `Ascent - Descent + Gap`. -/
def Bounds.LineThickness (b : Bounds) : ℤ :=
  b.Ascent - b.Descent + b.Gap

/-- `shaping.Input`: a run of text ready for shaping.  `Face` is `none` when
the Go field holds `nil`. -/
structure Input (F : Type) where
  Text : List Char
  RunStart : ℕ
  RunEnd : ℕ
  Direction : Direction
  Face : Option F
  Size : ℤ
deriving DecidableEq

/-- `shaping.Output`: the shaped result of one run, restricted to the fields
the pipeline reads. -/
structure Output (F : Type) where
  Glyphs : List Glyph
  Advance : ℤ
  LineBounds : Bounds
  Face : F
deriving DecidableEq

/-- The external go-text capabilities consumed by the pipeline:
`shaping.Segmenter.Split` (script/direction/face run splitting, fed with the
face list through `fixedFontmap`) and `shaping.HarfbuzzShaper.Shape`. -/
structure ShapeEnv (F : Type) where
  split : Input F → List F → List (Input F)
  shape : Input F → Output F

/-- `tabStop` (font.go lines 209-217). -/
def tabStop (spacew x : ℚ) (tabWidth : ℤ) : ℚ :=
  let tw : ℤ := if tabWidth ≤ 0 then DefaultTabWidth else tabWidth
  let tabw : ℚ := spacew * (tw : ℚ)
  let tabs : ℤ := ratTrunc ((x + tabw) / tabw)
  tabw * (tabs : ℚ)

/-- `processFontRun` (font.go lines 219-248).  Returns the `(size, base)`
pair of the Go function, the updated value of the `*advance` out-parameter,
and the state after the callback invocation. -/
def processFontRun {F σ : Type} (env : ShapeEnv F) (run : Output F) (textSize : ℤ)
    (y advance : ℚ) (cb : σ → Output F → ℚ → ℚ → σ) (st : σ) :
    (Size × ℚ) × ℚ × σ :=
  let common : (Size × ℚ) × ℚ × σ :=
    let st2 := cb st run advance y
    let advance2 := fixed266ToFloat32 run.Advance + advance
    ((NewSize advance2 (fixed266ToFloat32 run.LineBounds.LineThickness),
      fixed266ToFloat32 run.LineBounds.Ascent), advance2, st2)
  match run.Glyphs with
  | [g] =>
    if g.GlyphID = 0 then
      let inp : Input F :=
        ⟨[Char.ofNat 0xfffd], 0, 1, Direction.LTR, some run.Face, textSize⟩
      let out := env.shape inp
      let y2 := fixed266ToFloat32 out.LineBounds.Ascent
      let st2 := cb st out advance y2
      let advance2 := fixed266ToFloat32 out.Advance + advance
      ((NewSize advance2 (fixed266ToFloat32 run.LineBounds.LineThickness),
        fixed266ToFloat32 run.LineBounds.Ascent), advance2, st2)
    else common
  | _ => common

/-- The run loop of `processSubString` (font.go lines 148-159), threading the
mutable `advance` and `thickness` variables.  Note that the Go code compares
the second return value of `processFontRun` (the run's ascent) with the
mutated `advance` and keeps the larger. -/
def processSubStringLoop {F σ : Type} (env : ShapeEnv F) (textSize : ℤ) (base : ℚ)
    (cb : σ → Output F → ℚ → ℚ → σ) :
    List (Output F) → ℚ → ℚ → σ → (ℚ × ℚ) × σ
  | [], advance, thickness, st => ((advance, thickness), st)
  | run :: rest, advance, thickness, st =>
    let r := processFontRun env run textSize base advance cb st
    let thickness2 := if thickness < r.1.1.Height then r.1.1.Height else thickness
    let advance2 := if r.2.1 ≤ r.1.2 then r.1.2 else r.2.1
    processSubStringLoop env textSize base cb rest advance2 thickness2 r.2.2

/-- `processSubString` (font.go lines 126-161). -/
def processSubString {F σ : Type} (env : ShapeEnv F) (str : List Char) (f : List F)
    (fontSize scale startX : ℚ) (cb : σ → Output F → ℚ → ℚ → σ) (st : σ) :
    (Size × ℚ) × σ :=
  let inp : Input F :=
    ⟨str, 0, str.length, Direction.LTR, none, ratTrunc (fontSize * scale) * 64⟩
  let runs := env.split inp f
  let line := runs.map env.shape
  let base := line.foldl
    (fun b r =>
      let asc := fixed266ToFloat32 r.LineBounds.Ascent
      if b < asc then asc else b) 0
  let r := processSubStringLoop env (float32ToFixed266 fontSize) base cb line startX 0 st
  ((NewSize r.1.1 r.1.2, r.1.1), r.2)

/-- Split a rune list at tab characters: `splitTabs rs` is the list of the
maximal tab-free segments of `rs` (always non-empty; a leading, trailing or
doubled tab contributes an empty segment).  This is exactly the sequence of
slices `rs[start:i]` the loop of `processString` works through. -/
def splitTabs : List Char → List (List Char)
  | [] => [[]]
  | c :: rest =>
    if c = '\t' then [] :: splitTabs rest
    else (c :: (splitTabs rest).headI) :: (splitTabs rest).tail

/-- The character loop of `processString` (font.go lines 104-122), expressed
over the tab-separated segments of the rune list: each segment except the
last is followed by a tab stop; empty segments are skipped (`i > start`,
`start < end`); `height` is overwritten by each processed segment. -/
def processStringLoop {F σ : Type} (env : ShapeEnv F) (f : List F)
    (fontSize scale : ℚ) (tabWidth : ℤ) (cb : σ → Output F → ℚ → ℚ → σ) :
    List (List Char) → ℚ → ℚ → σ → (Size × ℚ) × σ
  | [], x, height, st => ((NewSize x height, x), st)
  | [seg], x, height, st =>
    if seg = [] then ((NewSize x height, x), st)
    else
      let r := processSubString env seg f fontSize scale x cb st
      ((NewSize r.1.2 r.1.1.Height, r.1.2), r.2)
  | seg :: seg2 :: rest, x, height, st =>
    let s1 :=
      if seg = [] then ((x, height), st)
      else
        let r := processSubString env seg f fontSize scale x cb st
        ((r.1.2, r.1.1.Height), r.2)
    let spacew := scale * fontTabSpaceSize
    let x2 := tabStop spacew s1.1.1 tabWidth
    processStringLoop env f fontSize scale tabWidth cb (seg2 :: rest) x2 s1.1.2 s1.2

/-- `processString` (font.go lines 95-124): strip carriage returns, then walk
the tab-separated segments. -/
def processString {F σ : Type} (env : ShapeEnv F) (s : String) (f : List F)
    (fontSize scale : ℚ) (tabWidth : ℤ) (cb : σ → Output F → ℚ → ℚ → σ) (st : σ) :
    (Size × ℚ) × σ :=
  let rs := s.toList.filter (fun c => c != '\r')
  processStringLoop env f fontSize scale tabWidth cb (splitTabs rs) 0 0 st

/-- `DrawString` (font.go lines 78-93), modelled by the sequence of paint
invocations `r.DrawShapedRunAt(seg, dst, int(x), int(y))` it performs; the
destination image and the colour affect only the painted pixels, not the
geometry. -/
def DrawString {F : Type} (env : ShapeEnv F) (s : String) (f : List F)
    (fontSize scale : ℚ) (tabWidth : ℤ) : List (Output F × ℤ × ℤ) :=
  if s = " " then []
  else
    (processString env s f fontSize scale tabWidth
      (fun acc seg x y => acc ++ [(seg, ratTrunc x, ratTrunc y)]) []).2

/-- `MeasureString` (font.go lines 175-181): the single-space special case,
otherwise `processString` at scale 1 with a no-op sink. -/
def MeasureString {F : Type} (env : ShapeEnv F) (f : List F) (s : String)
    (textSize : ℚ) (tabWidth : ℤ) : Size × ℚ :=
  if s = " " then (NewSize 0 0, 0)
  else (processString env s f textSize 1 tabWidth (fun (u : Unit) _ _ _ => u) ()).1

/-- A recording glyph sink: appends each `(run, x, y)` invocation to its
state. -/
def recCb {F : Type} :
    List (Output F × ℚ × ℚ) → Output F → ℚ → ℚ → List (Output F × ℚ × ℚ) :=
  fun acc r x y => acc ++ [(r, x, y)]

/-- The sequence of `(run, x, y)` glyph-sink invocations performed by
`processString`, obtained by running it with a recording callback. -/
def stringEmissions {F : Type} (env : ShapeEnv F) (s : String) (f : List F)
    (fontSize scale : ℚ) (tabWidth : ℤ) : List (Output F × ℚ × ℚ) :=
  (processString env s f fontSize scale tabWidth recCb []).2

/-- Replay a list of recorded glyph-sink invocations through a callback. -/
def cbFold {F σ : Type} (cb : σ → Output F → ℚ → ℚ → σ) (st : σ)
    (es : List (Output F × ℚ × ℚ)) : σ :=
  es.foldl (fun a e => cb a e.1 e.2.1 e.2.2) st

/-- The theme capability: one raw font resource per style category (primary
and built-in default), plus an optional emoji font (`theme.DefaultEmojiFont`
returns `nil` when the environment supplies none). -/
structure Theme (R : Type) where
  TextFont : R
  DefaultTextFont : R
  TextBoldFont : R
  DefaultTextBoldFont : R
  TextItalicFont : R
  DefaultTextItalicFont : R
  TextBoldItalicFont : R
  DefaultTextBoldItalicFont : R
  TextMonospaceFont : R
  DefaultTextMonospaceFont : R
  SymbolFont : R
  DefaultSymbolFont : R
  DefaultEmojiFont : Option R

/-- `FontCacheItem` (font.go lines 250-252).  A list entry is `none` when the
corresponding Go `font.Face` is `nil`. -/
structure FontCacheItem (F : Type) where
  Fonts : List (Option F)
deriving DecidableEq

/-- `loadMeasureFont` (font.go lines 163-171): parse the resource bytes,
return `nil` (here `none`) and log on failure.  The parser
(`font.ParseTTF`) is the external face-provider capability. -/
def loadMeasureFont {R F : Type} (parseTTF : R → Option F) (data : R) : Option F :=
  parseTTF data

/-- The category switch of `CachedFontFace` (font.go lines 34-55): the
`(f1, f2)` pair of primary and built-in default face for the first matching
style category. -/
def lookupStyleFaces {R F : Type} (th : Theme R) (parseTTF : R → Option F)
    (style : TextStyle) : Option F × Option F :=
  if style.Monospace then
    (loadMeasureFont parseTTF th.TextMonospaceFont,
     loadMeasureFont parseTTF th.DefaultTextMonospaceFont)
  else if style.Bold then
    if style.Italic then
      (loadMeasureFont parseTTF th.TextBoldItalicFont,
       loadMeasureFont parseTTF th.DefaultTextBoldItalicFont)
    else
      (loadMeasureFont parseTTF th.TextBoldFont,
       loadMeasureFont parseTTF th.DefaultTextBoldFont)
  else if style.Italic then
    (loadMeasureFont parseTTF th.TextItalicFont,
     loadMeasureFont parseTTF th.DefaultTextItalicFont)
  else if style.Symbol then
    (loadMeasureFont parseTTF th.SymbolFont,
     loadMeasureFont parseTTF th.DefaultSymbolFont)
  else
    (loadMeasureFont parseTTF th.TextFont,
     loadMeasureFont parseTTF th.DefaultTextFont)

/-- `CachedFontFace` (font.go lines 30-69), with the process-wide `sync.Map`
font cache threaded explicitly: returns the face set and the updated cache.
The `fontDP`/`texScale` parameters of the Go signature are unused by the
function body and omitted. -/
def CachedFontFace {R F : Type} (th : Theme R) (parseTTF : R → Option F)
    (fontCache : TextStyle → Option (FontCacheItem F)) (style : TextStyle) :
    FontCacheItem F × (TextStyle → Option (FontCacheItem F)) :=
  match fontCache style with
  | some val => (val, fontCache)
  | none =>
    let p := lookupStyleFaces th parseTTF style
    let f1 := if p.1.isNone then p.2 else p.1
    let faces := [f1, p.2]
    let faces :=
      match th.DefaultEmojiFont with
      | some emoji => faces ++ [loadMeasureFont parseTTF emoji]
      | none => faces
    let val : FontCacheItem F := ⟨faces⟩
    (val, fun s => if s = style then some val else fontCache s)

/-- Key of the metrics cache: (text content, font size, style descriptor). -/
def MetricsKey : Type := String × ℚ × TextStyle

instance : DecidableEq MetricsKey := by
  unfold MetricsKey
  infer_instance

/-- The metrics-cache store, a map from keys to stored (size, baseline)
pairs. -/
def MetricsMap : Type := MetricsKey → Option (Size × ℚ)

/-- Modelled from the spec: `cache.GetFontMetrics` of `fyne/internal/cache`
(not part of the sources under verification).  §4.6: a lookup returns the
stored `(size, baseline)` pair; a miss is represented by a zero baseline
(and zero size). -/
def GetFontMetrics (c : MetricsMap) (text : String) (fontSize : ℚ)
    (style : TextStyle) : Size × ℚ :=
  match c (text, fontSize, style) with
  | some v => v
  | none => (NewSize 0 0, 0)

/-- Modelled from the spec: `cache.SetFontMetrics` of `fyne/internal/cache`
(not part of the sources under verification).  §4.6: store the value under
the (text, size, style) key. -/
def SetFontMetrics (c : MetricsMap) (text : String) (fontSize : ℚ)
    (style : TextStyle) (size : Size) (base : ℚ) : MetricsMap :=
  fun k => if k = (text, fontSize, style) then some (size, base) else c k

/-- `measureText` (font.go lines 204-207). -/
def measureText {R F : Type} (env : ShapeEnv (Option F)) (th : Theme R)
    (parseTTF : R → Option F) (fontCache : TextStyle → Option (FontCacheItem F))
    (text : String) (fontSize : ℚ) (style : TextStyle) : Size × ℚ :=
  let face := (CachedFontFace th parseTTF fontCache style).1
  MeasureString env face.Fonts text fontSize style.TabWidth

/-- `RenderedTextSize` (font.go lines 185-194), with the metrics cache
threaded explicitly: returns the (size, baseline) pair and the updated
metrics cache. -/
def RenderedTextSize {R F : Type} (env : ShapeEnv (Option F)) (th : Theme R)
    (parseTTF : R → Option F) (fontCache : TextStyle → Option (FontCacheItem F))
    (metrics : MetricsMap) (text : String) (fontSize : ℚ) (style : TextStyle) :
    (Size × ℚ) × MetricsMap :=
  let sb := GetFontMetrics metrics text fontSize style
  if sb.2 ≠ 0 then (sb, metrics)
  else
    let m := measureText env th parseTTF fontCache text fontSize style
    (m, SetFontMetrics metrics text fontSize style m.1 m.2)

/-- A pixel value representable as a float32 that lies within the range of
the 26.6 fixed-point format: a dyadic rational with at most 24 significant
bits, of magnitude below 2^25 pixels. -/
def IsFloat32Pixel (q : ℚ) : Prop :=
  (∃ m e : ℤ, |m| < 2 ^ 24 ∧ q = (m : ℚ) * (2 : ℚ) ^ e) ∧ |q| < 2 ^ 25

/-! ### Concrete instances used by witnesses and counterexamples -/

/-- A shaped output for the letter `a` in the witness environment: advance
10 px, ascent 8 px, line thickness 10 px. -/
def outA : Output ℕ := ⟨[⟨1⟩], 640, ⟨512, -128, 0⟩, 0⟩

/-- A shaped output for the letter `b` in the witness environment: advance
5 px, ascent 4 px, line thickness 5 px. -/
def outB : Output ℕ := ⟨[⟨1⟩], 320, ⟨256, -64, 0⟩, 0⟩

/-- A concrete shaping environment: every input is a single run; `a` shapes
to `outA`, everything else to `outB`. -/
def env0 : ShapeEnv ℕ :=
  ⟨fun inp _ => [inp],
   fun inp => if inp.Text = ['a'] then outA else outB⟩

/-- The face list of the witness environment. -/
def faces0 : List ℕ := [0]

/-- A concrete theme whose twelve category resources are the numbers
0 … 11 and which supplies no emoji font. -/
def th0 : Theme ℕ :=
  ⟨0, 1, 2, 3, 4, 5, 6, 7, 8, 9, 10, 11, none⟩

/-- The same theme with emoji resource 12. -/
def th1 : Theme ℕ :=
  ⟨0, 1, 2, 3, 4, 5, 6, 7, 8, 9, 10, 11, some 12⟩

/-- The plain default style. -/
def style0 : TextStyle := ⟨false, false, false, false, 0⟩

/-- A Monospace + Bold style. -/
def styleMB : TextStyle := ⟨true, false, true, false, 0⟩

/-- A run with a single unresolved glyph (identifier 0), advance 100/64 px,
ascent 1 px, line thickness 1 px. -/
def runMiss : Output ℕ := ⟨[⟨0⟩], 100, ⟨64, 0, 0⟩, 0⟩

/-- A shaping environment over nullable faces, as used below
`CachedFontFace`: every input is one run shaping to a fixed output. -/
def envOpt : ShapeEnv (Option ℕ) :=
  ⟨fun inp _ => [inp], fun _ => ⟨[⟨1⟩], 320, ⟨256, -64, 0⟩, none⟩⟩

/-- An empty metrics cache. -/
def metrics0 : MetricsMap := fun _ => none

/-- A metrics cache holding one entry with a non-zero baseline. -/
def metrics1 : MetricsMap :=
  fun k => if k = ("x", (16 : ℚ), style0) then some (NewSize 3 4, 7) else none

/-! ### Callback-independence (simulation) lemmas

The glyph sink of the Go pipeline returns nothing: the geometry computation
never reads anything it produces.  The following lemmas make this precise
for the state-transformer model: the non-state components of every pipeline
function are independent of the callback and its state, and the final state
is obtained by replaying the recorded emission list through the callback. -/

theorem cbFold_append {F σ : Type} (cb : σ → Output F → ℚ → ℚ → σ) (st : σ)
    (l1 l2 : List (Output F × ℚ × ℚ)) :
    cbFold cb st (l1 ++ l2) = cbFold cb (cbFold cb st l1) l2 := by
  unfold cbFold
  exact List.foldl_append _ _ _ _

theorem processFontRun_fst {F σ σ' : Type} (env : ShapeEnv F) (run : Output F)
    (ts : ℤ) (y adv : ℚ) (cb : σ → Output F → ℚ → ℚ → σ) (st : σ)
    (cb' : σ' → Output F → ℚ → ℚ → σ') (st' : σ') :
    (processFontRun env run ts y adv cb st).1
      = (processFontRun env run ts y adv cb' st').1 ∧
    (processFontRun env run ts y adv cb st).2.1
      = (processFontRun env run ts y adv cb' st').2.1 := by
  rcases run with ⟨gs, a, lb, fc⟩
  match gs with
  | [] => exact ⟨rfl, rfl⟩
  | [g] =>
    by_cases h : g.GlyphID = 0 <;> simp [processFontRun, h]
  | g1 :: g2 :: rest => exact ⟨rfl, rfl⟩

theorem processFontRun_rec {F : Type} (env : ShapeEnv F) (run : Output F)
    (ts : ℤ) (y adv : ℚ) (acc : List (Output F × ℚ × ℚ)) :
    (processFontRun env run ts y adv recCb acc).2.2
      = acc ++ (processFontRun env run ts y adv recCb []).2.2 := by
  rcases run with ⟨gs, a, lb, fc⟩
  match gs with
  | [] => simp [processFontRun, recCb]
  | [g] =>
    by_cases h : g.GlyphID = 0 <;> simp [processFontRun, h, recCb]
  | g1 :: g2 :: rest => simp [processFontRun, recCb]

theorem processFontRun_snd {F σ : Type} (env : ShapeEnv F) (run : Output F)
    (ts : ℤ) (y adv : ℚ) (cb : σ → Output F → ℚ → ℚ → σ) (st : σ) :
    (processFontRun env run ts y adv cb st).2.2
      = cbFold cb st ((processFontRun env run ts y adv recCb []).2.2) := by
  rcases run with ⟨gs, a, lb, fc⟩
  match gs with
  | [] => simp [processFontRun, recCb, cbFold]
  | [g] =>
    by_cases h : g.GlyphID = 0 <;> simp [processFontRun, h, recCb, cbFold]
  | g1 :: g2 :: rest => simp [processFontRun, recCb, cbFold]

theorem processSubStringLoop_fst {F σ σ' : Type} (env : ShapeEnv F) (ts : ℤ)
    (base : ℚ) (cb : σ → Output F → ℚ → ℚ → σ) (cb' : σ' → Output F → ℚ → ℚ → σ') :
    ∀ (line : List (Output F)) (adv th : ℚ) (st : σ) (st' : σ'),
      (processSubStringLoop env ts base cb line adv th st).1
        = (processSubStringLoop env ts base cb' line adv th st').1 := by
  intro line
  induction line with
  | nil => intro adv th st st'; rfl
  | cons run rest ih =>
    intro adv th st st'
    simp only [processSubStringLoop]
    rw [(processFontRun_fst env run ts base adv cb st cb' st').1,
      (processFontRun_fst env run ts base adv cb st cb' st').2]
    exact ih _ _ _ _

theorem processSubStringLoop_rec {F : Type} (env : ShapeEnv F) (ts : ℤ)
    (base : ℚ) :
    ∀ (line : List (Output F)) (adv th : ℚ) (acc : List (Output F × ℚ × ℚ)),
      (processSubStringLoop env ts base recCb line adv th acc).2
        = acc ++ (processSubStringLoop env ts base recCb line adv th []).2 := by
  intro line
  induction line with
  | nil => intro adv th acc; simp [processSubStringLoop]
  | cons run rest ih =>
    intro adv th acc
    simp only [processSubStringLoop]
    rw [(processFontRun_fst env run ts base adv recCb acc recCb []).1,
      (processFontRun_fst env run ts base adv recCb acc recCb []).2,
      processFontRun_rec env run ts base adv acc,
      ih _ _ ((processFontRun env run ts base adv recCb []).2.2),
      ih _ _ (acc ++ (processFontRun env run ts base adv recCb []).2.2)]
    simp

theorem processSubStringLoop_snd {F σ : Type} (env : ShapeEnv F) (ts : ℤ)
    (base : ℚ) (cb : σ → Output F → ℚ → ℚ → σ) :
    ∀ (line : List (Output F)) (adv th : ℚ) (st : σ),
      (processSubStringLoop env ts base cb line adv th st).2
        = cbFold cb st ((processSubStringLoop env ts base recCb line adv th []).2) := by
  intro line
  induction line with
  | nil => intro adv th st; simp [processSubStringLoop, cbFold]
  | cons run rest ih =>
    intro adv th st
    simp only [processSubStringLoop]
    rw [(processFontRun_fst env run ts base adv cb st recCb []).1,
      (processFontRun_fst env run ts base adv cb st recCb []).2,
      processSubStringLoop_rec env ts base rest _ _
        ((processFontRun env run ts base adv recCb []).2.2),
      cbFold_append, ← processFontRun_snd env run ts base adv cb st]
    exact ih _ _ _

theorem processSubString_fst {F σ σ' : Type} (env : ShapeEnv F) (str : List Char)
    (f : List F) (fontSize scale startX : ℚ) (cb : σ → Output F → ℚ → ℚ → σ)
    (st : σ) (cb' : σ' → Output F → ℚ → ℚ → σ') (st' : σ') :
    (processSubString env str f fontSize scale startX cb st).1
      = (processSubString env str f fontSize scale startX cb' st').1 := by
  simp only [processSubString]
  rw [processSubStringLoop_fst env _ _ cb cb' _ startX 0 st st']

theorem processSubString_rec {F : Type} (env : ShapeEnv F) (str : List Char)
    (f : List F) (fontSize scale startX : ℚ) (acc : List (Output F × ℚ × ℚ)) :
    (processSubString env str f fontSize scale startX recCb acc).2
      = acc ++ (processSubString env str f fontSize scale startX recCb []).2 := by
  simp only [processSubString]
  rw [processSubStringLoop_rec]

theorem processSubString_snd {F σ : Type} (env : ShapeEnv F) (str : List Char)
    (f : List F) (fontSize scale startX : ℚ) (cb : σ → Output F → ℚ → ℚ → σ)
    (st : σ) :
    (processSubString env str f fontSize scale startX cb st).2
      = cbFold cb st ((processSubString env str f fontSize scale startX recCb []).2) := by
  simp only [processSubString]
  rw [processSubStringLoop_snd]

theorem processStringLoop_fst {F σ σ' : Type} (env : ShapeEnv F) (f : List F)
    (fontSize scale : ℚ) (tabWidth : ℤ) (cb : σ → Output F → ℚ → ℚ → σ)
    (cb' : σ' → Output F → ℚ → ℚ → σ') :
    ∀ (segs : List (List Char)) (x h : ℚ) (st : σ) (st' : σ'),
      (processStringLoop env f fontSize scale tabWidth cb segs x h st).1
        = (processStringLoop env f fontSize scale tabWidth cb' segs x h st').1 := by
  intro segs
  induction segs with
  | nil => intro x h st st'; rfl
  | cons seg rest ih =>
    intro x h st st'
    cases rest with
    | nil =>
      by_cases hseg : seg = []
      · simp [processStringLoop, hseg]
      · simp only [processStringLoop, if_neg hseg]
        rw [processSubString_fst env seg f fontSize scale x cb st cb' st']
    | cons seg2 rest2 =>
      by_cases hseg : seg = []
      · simp only [processStringLoop, if_pos hseg]
        exact ih _ _ _ _
      · simp only [processStringLoop, if_neg hseg]
        rw [processSubString_fst env seg f fontSize scale x cb st cb' st']
        exact ih _ _ _ _

theorem processStringLoop_rec {F : Type} (env : ShapeEnv F) (f : List F)
    (fontSize scale : ℚ) (tabWidth : ℤ) :
    ∀ (segs : List (List Char)) (x h : ℚ) (acc : List (Output F × ℚ × ℚ)),
      (processStringLoop env f fontSize scale tabWidth recCb segs x h acc).2
        = acc ++ (processStringLoop env f fontSize scale tabWidth recCb segs x h []).2 := by
  intro segs
  induction segs with
  | nil => intro x h acc; simp [processStringLoop]
  | cons seg rest ih =>
    intro x h acc
    cases rest with
    | nil =>
      by_cases hseg : seg = []
      · simp [processStringLoop, hseg]
      · simp only [processStringLoop, if_neg hseg]
        rw [processSubString_rec env seg f fontSize scale x acc]
    | cons seg2 rest2 =>
      by_cases hseg : seg = []
      · simp only [processStringLoop, if_pos hseg]
        exact ih _ _ _
      · simp only [processStringLoop, if_neg hseg]
        rw [processSubString_fst env seg f fontSize scale x recCb acc recCb [],
          processSubString_rec env seg f fontSize scale x acc,
          ih _ _ ((processSubString env seg f fontSize scale x recCb []).2),
          ih _ _ (acc ++ (processSubString env seg f fontSize scale x recCb []).2)]
        simp

theorem processStringLoop_snd {F σ : Type} (env : ShapeEnv F) (f : List F)
    (fontSize scale : ℚ) (tabWidth : ℤ) (cb : σ → Output F → ℚ → ℚ → σ) :
    ∀ (segs : List (List Char)) (x h : ℚ) (st : σ),
      (processStringLoop env f fontSize scale tabWidth cb segs x h st).2
        = cbFold cb st
            ((processStringLoop env f fontSize scale tabWidth recCb segs x h []).2) := by
  intro segs
  induction segs with
  | nil => intro x h st; simp [processStringLoop, cbFold]
  | cons seg rest ih =>
    intro x h st
    cases rest with
    | nil =>
      by_cases hseg : seg = []
      · simp [processStringLoop, hseg, cbFold]
      · simp only [processStringLoop, if_neg hseg]
        rw [processSubString_snd env seg f fontSize scale x cb st]
    | cons seg2 rest2 =>
      by_cases hseg : seg = []
      · simp only [processStringLoop, if_pos hseg]
        exact ih _ _ _
      · simp only [processStringLoop, if_neg hseg]
        rw [processSubString_fst env seg f fontSize scale x cb st recCb [],
          processStringLoop_rec env f fontSize scale tabWidth _ _ _
            ((processSubString env seg f fontSize scale x recCb []).2),
          cbFold_append, ← processSubString_snd env seg f fontSize scale x cb st]
        exact ih _ _ _

theorem processString_fst {F σ σ' : Type} (env : ShapeEnv F) (s : String)
    (f : List F) (fontSize scale : ℚ) (tabWidth : ℤ)
    (cb : σ → Output F → ℚ → ℚ → σ) (st : σ)
    (cb' : σ' → Output F → ℚ → ℚ → σ') (st' : σ') :
    (processString env s f fontSize scale tabWidth cb st).1
      = (processString env s f fontSize scale tabWidth cb' st').1 := by
  simp only [processString]
  exact processStringLoop_fst env f fontSize scale tabWidth cb cb' _ 0 0 st st'

theorem processString_snd {F σ : Type} (env : ShapeEnv F) (s : String)
    (f : List F) (fontSize scale : ℚ) (tabWidth : ℤ)
    (cb : σ → Output F → ℚ → ℚ → σ) (st : σ) :
    (processString env s f fontSize scale tabWidth cb st).2
      = cbFold cb st (stringEmissions env s f fontSize scale tabWidth) := by
  simp only [processString, stringEmissions]
  exact processStringLoop_snd env f fontSize scale tabWidth cb _ 0 0 st

/-! ### Structural lemmas about tab segmentation and the string loop -/

theorem splitTabs_ne_nil : ∀ rs : List Char, splitTabs rs ≠ [] := by
  intro rs
  cases rs with
  | nil => simp [splitTabs]
  | cons c rest => by_cases h : c = '\t' <;> simp [splitTabs, h]

theorem splitTabs_append_tab : ∀ p q : List Char,
    splitTabs (p ++ '\t' :: q) = splitTabs p ++ splitTabs q := by
  intro p
  induction p with
  | nil => intro q; simp [splitTabs]
  | cons c rest ih =>
    intro q
    by_cases h : c = '\t'
    · simp [splitTabs, h, ih]
    · simp only [List.cons_append, splitTabs, if_neg h, List.append_eq]
      rw [ih]
      cases hsp : splitTabs rest with
      | nil => exact absurd hsp (splitTabs_ne_nil rest)
      | cons s ss => simp [hsp]

theorem splitTabs_no_tab : ∀ rs : List Char, '\t' ∉ rs → splitTabs rs = [rs] := by
  intro rs
  induction rs with
  | nil => intro _; rfl
  | cons c rest ih =>
    intro h
    have hc : ¬c = '\t' := fun hx => h (hx ▸ List.mem_cons_self c rest)
    have hrest : '\t' ∉ rest := fun hx => h (List.mem_cons_of_mem c hx)
    simp [splitTabs, hc, ih hrest]

theorem processStringLoop_width {F σ : Type} (env : ShapeEnv F) (f : List F)
    (fontSize scale : ℚ) (tabWidth : ℤ) (cb : σ → Output F → ℚ → ℚ → σ) :
    ∀ (segs : List (List Char)) (x h : ℚ) (st : σ),
      (processStringLoop env f fontSize scale tabWidth cb segs x h st).1.1.Width
        = (processStringLoop env f fontSize scale tabWidth cb segs x h st).1.2 := by
  intro segs
  induction segs with
  | nil => intro x h st; rfl
  | cons seg rest ih =>
    intro x h st
    cases rest with
    | nil =>
      by_cases hseg : seg = [] <;> simp [processStringLoop, hseg, NewSize]
    | cons seg2 rest2 =>
      by_cases hseg : seg = [] <;> simp only [processStringLoop, if_pos, if_neg, hseg] <;>
        exact ih _ _ _

theorem processStringLoop_append {F σ : Type} (env : ShapeEnv F) (f : List F)
    (fontSize scale : ℚ) (tabWidth : ℤ) (cb : σ → Output F → ℚ → ℚ → σ) :
    ∀ (A B : List (List Char)), A ≠ [] → B ≠ [] → ∀ (x h : ℚ) (st : σ),
      processStringLoop env f fontSize scale tabWidth cb (A ++ B) x h st
        = processStringLoop env f fontSize scale tabWidth cb B
            (tabStop (scale * fontTabSpaceSize)
              (processStringLoop env f fontSize scale tabWidth cb A x h st).1.2 tabWidth)
            (processStringLoop env f fontSize scale tabWidth cb A x h st).1.1.Height
            (processStringLoop env f fontSize scale tabWidth cb A x h st).2 := by
  intro A
  induction A with
  | nil => intro B hA; exact absurd rfl hA
  | cons a A2 ih =>
    intro B hA hB x h st
    cases A2 with
    | nil =>
      cases B with
      | nil => exact absurd rfl hB
      | cons b bs =>
        by_cases hseg : a = [] <;>
          simp [processStringLoop, hseg, NewSize]
    | cons a2 A3 =>
      cases B with
      | nil => exact absurd rfl hB
      | cons b bs =>
        have step : ∀ (x2 h2 : ℚ) (st2 : σ),
            processStringLoop env f fontSize scale tabWidth cb
                ((a2 :: A3) ++ b :: bs) x2 h2 st2
              = processStringLoop env f fontSize scale tabWidth cb (b :: bs)
                  (tabStop (scale * fontTabSpaceSize)
                    (processStringLoop env f fontSize scale tabWidth cb (a2 :: A3) x2 h2 st2).1.2
                    tabWidth)
                  (processStringLoop env f fontSize scale tabWidth cb (a2 :: A3) x2 h2 st2).1.1.Height
                  (processStringLoop env f fontSize scale tabWidth cb (a2 :: A3) x2 h2 st2).2 :=
          fun x2 h2 st2 =>
            ih (b :: bs) (List.cons_ne_nil a2 A3) (List.cons_ne_nil b bs) x2 h2 st2
        by_cases hseg : a = [] <;>
          simp only [List.cons_append, processStringLoop, if_pos, if_neg, hseg] <;>
          exact step _ _ _

/-! ### Truncation bounds -/

theorem ratTrunc_abs_sub_le (q : ℚ) : |(ratTrunc q : ℚ) - q| ≤ 1 := by
  unfold ratTrunc
  by_cases h : 0 ≤ q
  · rw [if_pos h, abs_le]
    constructor
    · linarith [Int.sub_one_lt_floor q]
    · linarith [Int.floor_le q]
  · rw [if_neg h, abs_le]
    constructor
    · linarith [Int.le_ceil q]
    · linarith [Int.ceil_lt_add_one q]

theorem ratTrunc_of_nonneg (q : ℚ) (h : 0 ≤ q) : ratTrunc q = ⌊q⌋ := by
  unfold ratTrunc
  exact if_pos h

/-! ### Replay of the recorded emissions through an appending sink -/

theorem cbFold_concat_map {F : Type} {β : Type}
    (g : Output F × ℚ × ℚ → β) :
    ∀ (es : List (Output F × ℚ × ℚ)) (acc : List β),
      cbFold (fun a r x y => a ++ [g (r, x, y)]) acc es = acc ++ es.map g := by
  intro es
  induction es with
  | nil => intro acc; simp [cbFold]
  | cons e rest ih =>
    intro acc
    simp only [cbFold, List.foldl_cons, List.map_cons] at ih ⊢
    rw [ih (acc ++ [g (e.1, e.2.1, e.2.2)])]
    simp

/-! ### Shape of the face set computed on a cache miss -/

theorem cachedFontFace_fonts_eq {R F : Type} (th : Theme R) (parseTTF : R → Option F)
    (fontCache : TextStyle → Option (FontCacheItem F)) (style : TextStyle)
    (hmiss : fontCache style = none) :
    (CachedFontFace th parseTTF fontCache style).1.Fonts
      = [if (lookupStyleFaces th parseTTF style).1.isNone
           then (lookupStyleFaces th parseTTF style).2
           else (lookupStyleFaces th parseTTF style).1,
         (lookupStyleFaces th parseTTF style).2]
        ++ (match th.DefaultEmojiFont with
            | some e => [loadMeasureFont parseTTF e]
            | none => []) := by
  unfold CachedFontFace
  rw [hmiss]
  cases th.DefaultEmojiFont <;> simp

/-! ### The claims -/

/-- Claim C1: for every input string, face list, font size, scale and tab
width, `processString` returns the same `(size, advance)` pair regardless of
which glyph-sink callback (and callback state) is supplied; the callback is
invoked exactly on the run/position sequence `stringEmissions`, which is
determined solely by the other inputs; hence `DrawString`'s paint calls are
the truncations of that fixed sequence, and `MeasureString`'s no-op
measurement agrees with the geometry any drawing callback would observe. -/
theorem c1_processString_sink_independent {F σ₁ σ₂ : Type} (env : ShapeEnv F)
    (s : String) (f : List F) (fontSize scale : ℚ) (tabWidth : ℤ)
    (cb₁ : σ₁ → Output F → ℚ → ℚ → σ₁) (st₁ : σ₁)
    (cb₂ : σ₂ → Output F → ℚ → ℚ → σ₂) (st₂ : σ₂) :
    (processString env s f fontSize scale tabWidth cb₁ st₁).1
      = (processString env s f fontSize scale tabWidth cb₂ st₂).1
    ∧ (processString env s f fontSize scale tabWidth cb₁ st₁).2
      = cbFold cb₁ st₁ (stringEmissions env s f fontSize scale tabWidth)
    ∧ (s ≠ " " → DrawString env s f fontSize scale tabWidth
        = (stringEmissions env s f fontSize scale tabWidth).map
            (fun e => (e.1, ratTrunc e.2.1, ratTrunc e.2.2)))
    ∧ (s ≠ " " → MeasureString env f s fontSize tabWidth
        = (processString env s f fontSize 1 tabWidth cb₁ st₁).1) := by
  refine ⟨processString_fst env s f fontSize scale tabWidth cb₁ st₁ cb₂ st₂,
    processString_snd env s f fontSize scale tabWidth cb₁ st₁, ?_, ?_⟩
  · intro hs
    unfold DrawString
    rw [if_neg hs, processString_snd]
    have h := cbFold_concat_map
      (fun e : Output F × ℚ × ℚ => (e.1, ratTrunc e.2.1, ratTrunc e.2.2))
      (stringEmissions env s f fontSize scale tabWidth) []
    simpa using h
  · intro hs
    unfold MeasureString
    rw [if_neg hs]
    exact processString_fst env s f fontSize 1 tabWidth
      (fun (u : Unit) _ _ _ => u) () cb₁ st₁

/-- Witness for C1 at a concrete environment and string. -/
theorem c1_witness :
    ("b" : String) ≠ " " ∧
      MeasureString env0 faces0 "b" 16 0
        = (processString env0 "b" faces0 16 1 0 (fun (u : Unit) _ _ _ => u) ()).1 :=
  ⟨by decide,
   (c1_processString_sink_independent env0 "b" faces0 16 1 0
      (fun (u : Unit) _ _ _ => u) () (fun (u : Unit) _ _ _ => u) ()).2.2.2 (by decide)⟩

/-- Claim C8: `MeasureString` returns a zero size and zero advance exactly
for the single-space string; every other string goes through the normal
`processString` pipeline; `DrawString` likewise paints nothing exactly for
the single-space string. -/
theorem c8_single_space_special_case {F : Type} (env : ShapeEnv F) (f : List F)
    (textSize scale : ℚ) (tabWidth : ℤ) :
    MeasureString env f " " textSize tabWidth = (NewSize 0 0, 0)
    ∧ (∀ s : String, s ≠ " " →
        MeasureString env f s textSize tabWidth
          = (processString env s f textSize 1 tabWidth (fun (u : Unit) _ _ _ => u) ()).1)
    ∧ DrawString env " " f textSize scale tabWidth = []
    ∧ (∀ s : String, s ≠ " " →
        DrawString env s f textSize scale tabWidth
          = (processString env s f textSize scale tabWidth
              (fun acc seg x y => acc ++ [(seg, ratTrunc x, ratTrunc y)]) []).2) := by
  refine ⟨?_, fun s hs => ?_, ?_, fun s hs => ?_⟩
  · unfold MeasureString; rw [if_pos rfl]
  · unfold MeasureString; rw [if_neg hs]
  · unfold DrawString; rw [if_pos rfl]
  · unfold DrawString; rw [if_neg hs]

/-- Witness for C8: a two-space string is not special-cased. -/
theorem c8_witness :
    ("  " : String) ≠ " " ∧
      MeasureString env0 faces0 "  " 16 0
        = (processString env0 "  " faces0 16 1 0 (fun (u : Unit) _ _ _ => u) ()).1 :=
  ⟨by decide, (c8_single_space_special_case env0 faces0 16 1 0).2.1 "  " (by decide)⟩

/-- Claim C3: for every non-negative cursor `x` and positive space width
`spacew`, with `stopw = spacew *` (the effective tab width: `tabWidth` when
positive, `DefaultTabWidth = 4` otherwise), `tabStop` computes
`stopw * floor ((x + stopw) / stopw)`, which is the smallest multiple of
`stopw` strictly greater than `x`. -/
theorem c3_tabStop_smallest_multiple (spacew x : ℚ) (tabWidth : ℤ)
    (hx : 0 ≤ x) (hs : 0 < spacew) :
    ∀ (w : ℤ) (stopw : ℚ),
      w = (if 0 < tabWidth then tabWidth else DefaultTabWidth) →
      stopw = spacew * (w : ℚ) →
      tabStop spacew x tabWidth = stopw * ((⌊(x + stopw) / stopw⌋ : ℤ) : ℚ)
      ∧ x < tabStop spacew x tabWidth
      ∧ (∃ k : ℤ, tabStop spacew x tabWidth = (k : ℚ) * stopw)
      ∧ (∀ k : ℤ, x < (k : ℚ) * stopw → tabStop spacew x tabWidth ≤ (k : ℚ) * stopw) := by
  intro w stopw hw hstopw
  have hw1 : 1 ≤ w := by
    rw [hw]
    by_cases h : 0 < tabWidth
    · rw [if_pos h]; omega
    · rw [if_neg h]; unfold DefaultTabWidth; omega
  have hstopw0 : 0 < stopw := by
    rw [hstopw]
    have : (1 : ℚ) ≤ (w : ℚ) := by exact_mod_cast hw1
    nlinarith
  have hstopwne : stopw ≠ 0 := ne_of_gt hstopw0
  have hcond : (if tabWidth ≤ 0 then DefaultTabWidth else tabWidth) = w := by
    rw [hw]
    by_cases h : tabWidth ≤ 0
    · rw [if_pos h, if_neg (by omega : ¬0 < tabWidth)]
    · rw [if_neg h, if_pos (by omega : 0 < tabWidth)]
  have htabw : tabStop spacew x tabWidth = stopw * ((ratTrunc ((x + stopw) / stopw) : ℤ) : ℚ) := by
    simp only [tabStop, hcond]
    rw [← hstopw]
  have hdiv : (x + stopw) / stopw = x / stopw + 1 := by
    field_simp
  have hpos : 0 ≤ (x + stopw) / stopw := by
    apply div_nonneg (by linarith) (le_of_lt hstopw0)
  have htr : ratTrunc ((x + stopw) / stopw) = ⌊(x + stopw) / stopw⌋ :=
    ratTrunc_of_nonneg _ hpos
  have hfloor : ⌊(x + stopw) / stopw⌋ = ⌊x / stopw⌋ + 1 := by
    rw [hdiv]
    exact_mod_cast Int.floor_add_int (x / stopw) 1
  refine ⟨by rw [htabw, htr], ?_, ?_, ?_⟩
  · rw [htabw, htr, hfloor]
    have h1 : x / stopw < (⌊x / stopw⌋ : ℚ) + 1 := Int.lt_floor_add_one _
    have h2 : x = stopw * (x / stopw) := by field_simp
    calc x = stopw * (x / stopw) := h2
      _ < stopw * ((⌊x / stopw⌋ : ℚ) + 1) := by
          exact mul_lt_mul_of_pos_left h1 hstopw0
      _ = stopw * ((((⌊x / stopw⌋ + 1) : ℤ) : ℚ)) := by push_cast; ring
  · exact ⟨⌊x / stopw⌋ + 1, by rw [htabw, htr, hfloor]; ring⟩
  · intro k hk
    rw [htabw, htr, hfloor]
    have hklt : x / stopw < (k : ℚ) := by
      rw [div_lt_iff₀ hstopw0]
      linarith [hk]
    have hfk : ⌊x / stopw⌋ < k := Int.floor_lt.mpr (by exact_mod_cast hklt)
    have hfk1 : (⌊x / stopw⌋ + 1 : ℤ) ≤ k := by omega
    have : ((⌊x / stopw⌋ + 1 : ℤ) : ℚ) ≤ (k : ℚ) := by exact_mod_cast hfk1
    calc stopw * ((((⌊x / stopw⌋ + 1) : ℤ) : ℚ)) ≤ stopw * (k : ℚ) :=
          mul_le_mul_of_nonneg_left this (le_of_lt hstopw0)
      _ = (k : ℚ) * stopw := by ring

-- Witness for C3: from cursor 25 with space width 10 and the default tab
-- width, the next stop is 40.
unseal Rat.mul Rat.add Rat.inv Rat.sub in
theorem c3_witness :
    (0 : ℚ) ≤ 25 ∧ (0 : ℚ) < 10 ∧ (25 : ℚ) < tabStop 10 25 0 ∧ tabStop 10 25 0 = 40 := by
  refine ⟨by norm_num, by norm_num, ?_, ?_⟩
  · exact ((c3_tabStop_smallest_multiple 10 25 0 (by norm_num) (by norm_num)) 4 40
      (by unfold DefaultTabWidth; norm_num) (by norm_num)).2.1
  · decide

/-- Claim C9: for every pixel value representable as a float32 within the
26.6 range, converting to 26.6 fixed point and back recovers the value to
within 1/64 of a pixel. -/
theorem c9_fixed_roundtrip (v : ℚ) (_h : IsFloat32Pixel v) :
    |fixed266ToFloat32 (float32ToFixed266 v) - v| ≤ 1 / 64 := by
  unfold fixed266ToFloat32 float32ToFixed266
  have h1 : |(ratTrunc (v * 64) : ℚ) - v * 64| ≤ 1 := ratTrunc_abs_sub_le (v * 64)
  have h2 : ((ratTrunc (v * 64) : ℤ) : ℚ) / 64 - v
      = ((ratTrunc (v * 64) : ℚ) - v * 64) / 64 := by ring
  rw [h2, abs_div, abs_of_pos (by norm_num : (0 : ℚ) < 64)]
  exact (div_le_div_iff_of_pos_right (by norm_num : (0 : ℚ) < 64)).mpr h1

/-- Witness for C9 at the representable value 3/2. -/
theorem c9_witness :
    IsFloat32Pixel (3 / 2 : ℚ) ∧
      |fixed266ToFloat32 (float32ToFixed266 (3 / 2 : ℚ)) - 3 / 2| ≤ 1 / 64 := by
  have hp : IsFloat32Pixel (3 / 2 : ℚ) := by
    refine ⟨⟨3, -1, by norm_num, ?_⟩, ?_⟩
    · norm_num [zpow_neg, zpow_one]
    · rw [abs_of_pos (by norm_num : (0 : ℚ) < 3 / 2)]
      norm_num
  exact ⟨hp, c9_fixed_roundtrip (3 / 2) hp⟩

/-- Claim C2: a run passed to `processFontRun` whose glyph list is exactly
one glyph with the "not found" identifier 0 is replaced by re-shaping a
one-character U+FFFD run with the run's own face and the fixed-point size
parameter; the substitute is emitted at the current cursor with vertical
origin equal to the substitute's own ascent (not the shared baseline `y`),
and the cursor advances by the substitute's advance.  Every other run is
emitted unchanged at the shared baseline and the cursor advances by the
run's own advance. -/
theorem c2_missing_glyph_substitution {F σ : Type} (env : ShapeEnv F)
    (run : Output F) (textSize : ℤ) (y advance : ℚ)
    (cb : σ → Output F → ℚ → ℚ → σ) (st : σ) :
    (∀ out, out = env.shape
        ⟨[Char.ofNat 0xfffd], 0, 1, Direction.LTR, some run.Face, textSize⟩ →
      ∀ g, run.Glyphs = [g] → g.GlyphID = 0 →
      processFontRun env run textSize y advance cb st
        = ((NewSize (fixed266ToFloat32 out.Advance + advance)
              (fixed266ToFloat32 run.LineBounds.LineThickness),
            fixed266ToFloat32 run.LineBounds.Ascent),
           fixed266ToFloat32 out.Advance + advance,
           cb st out advance (fixed266ToFloat32 out.LineBounds.Ascent)))
    ∧ (¬(∃ g, run.Glyphs = [g] ∧ g.GlyphID = 0) →
      processFontRun env run textSize y advance cb st
        = ((NewSize (fixed266ToFloat32 run.Advance + advance)
              (fixed266ToFloat32 run.LineBounds.LineThickness),
            fixed266ToFloat32 run.LineBounds.Ascent),
           fixed266ToFloat32 run.Advance + advance,
           cb st run advance y)) := by
  constructor
  · intro out hout g hg hid
    rcases run with ⟨gs, a, lb, fc⟩
    simp only at hg
    subst hg
    simp only at hout
    simp [processFontRun, hid, hout]
  · intro hno
    rcases run with ⟨gs, a, lb, fc⟩
    simp only at hno
    match gs with
    | [] => rfl
    | [g] =>
      have hid : ¬g.GlyphID = 0 := fun hid => hno ⟨g, rfl, hid⟩
      simp [processFontRun, hid]
    | g1 :: g2 :: rest => rfl

-- Witness for C2: a concrete one-glyph unresolved run in the concrete
-- environment; the substitute shapes to outB (advance 5 px, ascent 4 px),
-- so from cursor 3 the emission is at (3, 4) and the cursor moves to 8.
unseal Rat.mul Rat.add Rat.inv Rat.sub in
theorem c2_witness :
    runMiss.Glyphs = [(⟨0⟩ : Glyph)] ∧
      processFontRun env0 runMiss 1024 7 3 recCb []
        = ((NewSize 8 1, 1), 8, [(outB, 3, 4)]) := by
  constructor
  · rfl
  · have h := (c2_missing_glyph_substitution env0 runMiss 1024 7 3 recCb []).1
      (env0.shape ⟨[Char.ofNat 0xfffd], 0, 1, Direction.LTR, some runMiss.Face, 1024⟩)
      rfl ⟨0⟩ rfl rfl
    rw [h]
    decide

-- Counterexample to C4 as stated: in the concrete environment the string
-- "a\tb" has two tab-separated substrings whose processed line heights are
-- 10 (for "a") and 5 (for "b", measured at its cursor 40); `processString`
-- returns height 5 — the height of the last substring processed — which is
-- not the maximum 10.
unseal Rat.mul Rat.add Rat.inv Rat.sub in
theorem c4_counterexample :
    (processString env0 "a\tb" faces0 16 1 0 (fun (u : Unit) _ _ _ => u) ()).1.1.Height = 5
    ∧ (processSubString env0 ['a'] faces0 16 1 0 (fun (u : Unit) _ _ _ => u) ()).1.1.Height = 10
    ∧ (processSubString env0 ['b'] faces0 16 1 40 (fun (u : Unit) _ _ _ => u) ()).1.1.Height = 5
    ∧ ¬(5 : ℚ) = max 10 5 := by
  refine ⟨by decide, by decide, by decide, by norm_num⟩

/-- Claim C4 (amended): `processString` returns as its advance the final
cursor position, which also equals the returned width; its height is the
line height of the last tab-separated substring processed, not the maximum
across substrings: for any string whose carriage-return-stripped rune list
splits as `p ++ tab ++ q` with `q` tab-free and non-empty, the result is
exactly that of processing `q` alone at the cursor reached after `p` and
the final tab stop. -/
theorem c4_advance_and_last_height {F σ : Type} (env : ShapeEnv F) (f : List F)
    (fontSize scale : ℚ) (tabWidth : ℤ) (cb : σ → Output F → ℚ → ℚ → σ) (st : σ)
    (s : String) (p q : List Char)
    (hsplit : s.toList.filter (fun c => c != '\r') = p ++ '\t' :: q)
    (hq : '\t' ∉ q) (hqne : q ≠ []) :
    (processString env s f fontSize scale tabWidth cb st).1.1.Width
      = (processString env s f fontSize scale tabWidth cb st).1.2
    ∧ ∀ a, a = processString env (String.mk p) f fontSize scale tabWidth cb st →
      ∀ r, r = processSubString env q f fontSize scale
          (tabStop (scale * fontTabSpaceSize) a.1.2 tabWidth) cb a.2 →
      processString env s f fontSize scale tabWidth cb st
        = ((NewSize r.1.2 r.1.1.Height, r.1.2), r.2) := by
  constructor
  · simp only [processString]
    exact processStringLoop_width env f fontSize scale tabWidth cb _ 0 0 st
  · intro a ha r hr
    have hpfil : p.filter (fun c => c != '\r') = p := by
      apply List.filter_eq_self.mpr
      intro c hc
      have hmem : c ∈ s.toList.filter (fun c => c != '\r') := by
        rw [hsplit]
        exact List.mem_append_left _ hc
      exact (List.mem_filter.mp hmem).2
    have hmk : (String.mk p).toList = p := rfl
    have ha2 : a = processStringLoop env f fontSize scale tabWidth cb (splitTabs p) 0 0 st := by
      rw [ha]
      simp only [processString, hmk, hpfil]
    have hq1 : splitTabs q = [q] := splitTabs_no_tab q hq
    have hmain : processString env s f fontSize scale tabWidth cb st
        = processStringLoop env f fontSize scale tabWidth cb (splitTabs p ++ [q]) 0 0 st := by
      simp only [processString, hsplit, splitTabs_append_tab, hq1]
    rw [hmain,
      processStringLoop_append env f fontSize scale tabWidth cb (splitTabs p) [q]
        (splitTabs_ne_nil p) (by simp) 0 0 st,
      ← ha2]
    simp only [processStringLoop, if_neg hqne, ← hr]

-- Witness for C4 at the concrete environment: "a\tb" splits as
-- ['a'] ++ tab ++ ['b'] and evaluates to size 45 x 5 with advance 45.
unseal Rat.mul Rat.add Rat.inv Rat.sub in
theorem c4_witness :
    ("a\tb".toList.filter (fun c => c != '\r') = ['a'] ++ '\t' :: ['b'])
    ∧ ('\t' ∉ (['b'] : List Char)) ∧ (['b'] : List Char) ≠ []
    ∧ processString env0 "a\tb" faces0 16 1 0 (fun (u : Unit) _ _ _ => u) ()
        = ((NewSize 45 5, 45), ()) := by
  refine ⟨by decide, by decide, by decide, ?_⟩
  have h := (c4_advance_and_last_height env0 faces0 16 1 0 (fun (u : Unit) _ _ _ => u) ()
      "a\tb" ['a'] ['b'] (by decide) (by decide) (by decide)).2 _ rfl _ rfl
  rw [h]
  decide

/-- Claim C5: `RenderedTextSize` treats a zero baseline from the metrics
cache as authoritative "not cached": a lookup with a non-zero baseline is
returned as-is without re-measuring and the cache is unchanged; a lookup
with a zero baseline triggers a fresh measurement whose result is stored
under the same key and returned. -/
theorem c5_rendered_text_size_cache {R F : Type} (env : ShapeEnv (Option F))
    (th : Theme R) (parseTTF : R → Option F)
    (fontCache : TextStyle → Option (FontCacheItem F)) (metrics : MetricsMap)
    (text : String) (fontSize : ℚ) (style : TextStyle) :
    ((GetFontMetrics metrics text fontSize style).2 ≠ 0 →
      RenderedTextSize env th parseTTF fontCache metrics text fontSize style
        = (GetFontMetrics metrics text fontSize style, metrics))
    ∧ ((GetFontMetrics metrics text fontSize style).2 = 0 →
      RenderedTextSize env th parseTTF fontCache metrics text fontSize style
        = (measureText env th parseTTF fontCache text fontSize style,
           SetFontMetrics metrics text fontSize style
             (measureText env th parseTTF fontCache text fontSize style).1
             (measureText env th parseTTF fontCache text fontSize style).2)) := by
  constructor
  · intro h
    simp [RenderedTextSize, h]
  · intro h
    simp [RenderedTextSize, h]

-- Witness for C5: a cache holding baseline 7 for the key is returned
-- without re-measuring; an empty cache triggers measurement and storage.
theorem c5_witness :
    ((GetFontMetrics metrics1 "x" 16 style0).2 ≠ 0
      ∧ RenderedTextSize envOpt th0 (fun _ => none) (fun _ => none) metrics1 "x" 16 style0
          = (GetFontMetrics metrics1 "x" 16 style0, metrics1))
    ∧ ((GetFontMetrics metrics0 "x" 16 style0).2 = 0
      ∧ RenderedTextSize envOpt th0 (fun _ => none) (fun _ => none) metrics0 "x" 16 style0
          = (measureText envOpt th0 (fun _ => none) (fun _ => none) "x" 16 style0,
             SetFontMetrics metrics0 "x" 16 style0
               (measureText envOpt th0 (fun _ => none) (fun _ => none) "x" 16 style0).1
               (measureText envOpt th0 (fun _ => none) (fun _ => none) "x" 16 style0).2)) :=
  ⟨⟨by decide,
    (c5_rendered_text_size_cache envOpt th0 (fun _ => none) (fun _ => none)
      metrics1 "x" 16 style0).1 (by decide)⟩,
   ⟨by decide,
    (c5_rendered_text_size_cache envOpt th0 (fun _ => none) (fun _ => none)
      metrics0 "x" 16 style0).2 (by decide)⟩⟩

-- Counterexample to C6 as stated: when both the primary and the default
-- face of the matched category fail to load (the parser rejects every
-- resource) the computed face set is [nil, nil] — its first element IS
-- left unset, contradicting the claim's "including when both the primary
-- and the default face fail to load".
theorem c6_counterexample :
    (CachedFontFace th0 (fun _ => (none : Option ℕ)) (fun _ => none) style0).1.Fonts
      = [none, none] := by
  decide

/-- Claim C6 (amended): on a cache miss `CachedFontFace` always returns a
non-empty face set, and its first element is non-nil provided at least one
of the matched category's primary or default faces loads successfully (when
the primary fails, the default is substituted in its place); when both fail
the first element is nil — the unhandled edge case the spec flags in §9. -/
theorem c6_amended_first_face {R F : Type} (th : Theme R) (parseTTF : R → Option F)
    (fontCache : TextStyle → Option (FontCacheItem F)) (style : TextStyle)
    (hmiss : fontCache style = none)
    (hload : (lookupStyleFaces th parseTTF style).1 ≠ none
      ∨ (lookupStyleFaces th parseTTF style).2 ≠ none) :
    (CachedFontFace th parseTTF fontCache style).1.Fonts ≠ []
    ∧ ∃ g rest, (CachedFontFace th parseTTF fontCache style).1.Fonts = some g :: rest := by
  have hf1 : (if (lookupStyleFaces th parseTTF style).1.isNone
      then (lookupStyleFaces th parseTTF style).2
      else (lookupStyleFaces th parseTTF style).1) ≠ none := by
    rcases hp : (lookupStyleFaces th parseTTF style).1 with _ | a
    · rcases hload with h | h
      · exact absurd hp h
      · simpa [hp] using h
    · simp [hp]
  have hF := cachedFontFace_fonts_eq th parseTTF fontCache style hmiss
  obtain ⟨g, hg⟩ : ∃ g, (if (lookupStyleFaces th parseTTF style).1.isNone
      then (lookupStyleFaces th parseTTF style).2
      else (lookupStyleFaces th parseTTF style).1) = some g := by
    rcases hx : (if (lookupStyleFaces th parseTTF style).1.isNone
        then (lookupStyleFaces th parseTTF style).2
        else (lookupStyleFaces th parseTTF style).1) with _ | g
    · exact absurd hx hf1
    · exact ⟨g, rfl⟩
  constructor
  · rw [hF]
    simp
  · refine ⟨g, (lookupStyleFaces th parseTTF style).2
      :: (match th.DefaultEmojiFont with
          | some e => [loadMeasureFont parseTTF e]
          | none => []), ?_⟩
    rw [hF, hg]
    simp

-- Witness for C6 (amended): with a parser that accepts every resource the
-- first element of the default-style face set is populated.
theorem c6_witness :
    ((fun _ => (none : Option (FontCacheItem ℕ))) style0 = none)
    ∧ ((CachedFontFace th0 some (fun _ => none) style0).1.Fonts ≠ []
       ∧ ∃ g rest, (CachedFontFace th0 some (fun _ => none) style0).1.Fonts
           = some g :: rest) :=
  ⟨rfl, c6_amended_first_face th0 some (fun _ => none) style0 rfl (Or.inl (by decide))⟩

/-- Claim C7: face-set category selection follows the precedence
Monospace > Bold(with or without Italic) > Italic > Symbol > default with
first match winning; in particular every style with Monospace set — whether
or not Bold is also set — loads the monospace category's primary and
default faces. -/
theorem c7_category_precedence {R F : Type} (th : Theme R) (parseTTF : R → Option F)
    (fontCache : TextStyle → Option (FontCacheItem F)) (style : TextStyle)
    (hmiss : fontCache style = none) :
    (style.Monospace = true →
      (CachedFontFace th parseTTF fontCache style).1.Fonts.take 2
        = [if (loadMeasureFont parseTTF th.TextMonospaceFont).isNone
             then loadMeasureFont parseTTF th.DefaultTextMonospaceFont
             else loadMeasureFont parseTTF th.TextMonospaceFont,
           loadMeasureFont parseTTF th.DefaultTextMonospaceFont])
    ∧ (style.Monospace = false → style.Bold = true → style.Italic = true →
      (CachedFontFace th parseTTF fontCache style).1.Fonts.take 2
        = [if (loadMeasureFont parseTTF th.TextBoldItalicFont).isNone
             then loadMeasureFont parseTTF th.DefaultTextBoldItalicFont
             else loadMeasureFont parseTTF th.TextBoldItalicFont,
           loadMeasureFont parseTTF th.DefaultTextBoldItalicFont])
    ∧ (style.Monospace = false → style.Bold = true → style.Italic = false →
      (CachedFontFace th parseTTF fontCache style).1.Fonts.take 2
        = [if (loadMeasureFont parseTTF th.TextBoldFont).isNone
             then loadMeasureFont parseTTF th.DefaultTextBoldFont
             else loadMeasureFont parseTTF th.TextBoldFont,
           loadMeasureFont parseTTF th.DefaultTextBoldFont])
    ∧ (style.Monospace = false → style.Bold = false → style.Italic = true →
      (CachedFontFace th parseTTF fontCache style).1.Fonts.take 2
        = [if (loadMeasureFont parseTTF th.TextItalicFont).isNone
             then loadMeasureFont parseTTF th.DefaultTextItalicFont
             else loadMeasureFont parseTTF th.TextItalicFont,
           loadMeasureFont parseTTF th.DefaultTextItalicFont])
    ∧ (style.Monospace = false → style.Bold = false → style.Italic = false →
        style.Symbol = true →
      (CachedFontFace th parseTTF fontCache style).1.Fonts.take 2
        = [if (loadMeasureFont parseTTF th.SymbolFont).isNone
             then loadMeasureFont parseTTF th.DefaultSymbolFont
             else loadMeasureFont parseTTF th.SymbolFont,
           loadMeasureFont parseTTF th.DefaultSymbolFont])
    ∧ (style.Monospace = false → style.Bold = false → style.Italic = false →
        style.Symbol = false →
      (CachedFontFace th parseTTF fontCache style).1.Fonts.take 2
        = [if (loadMeasureFont parseTTF th.TextFont).isNone
             then loadMeasureFont parseTTF th.DefaultTextFont
             else loadMeasureFont parseTTF th.TextFont,
           loadMeasureFont parseTTF th.DefaultTextFont]) := by
  have hF := cachedFontFace_fonts_eq th parseTTF fontCache style hmiss
  have htake : ∀ (a b : Option F) (l : List (Option F)), (([a, b] ++ l)).take 2 = [a, b] :=
    fun a b l => rfl
  refine ⟨?_, ?_, ?_, ?_, ?_, ?_⟩
  · intro hM
    have hlp : lookupStyleFaces th parseTTF style
        = (loadMeasureFont parseTTF th.TextMonospaceFont,
           loadMeasureFont parseTTF th.DefaultTextMonospaceFont) := by
      simp [lookupStyleFaces, hM]
    rw [hF, htake, hlp]
  · intro hM hB hI
    have hlp : lookupStyleFaces th parseTTF style
        = (loadMeasureFont parseTTF th.TextBoldItalicFont,
           loadMeasureFont parseTTF th.DefaultTextBoldItalicFont) := by
      simp [lookupStyleFaces, hM, hB, hI]
    rw [hF, htake, hlp]
  · intro hM hB hI
    have hlp : lookupStyleFaces th parseTTF style
        = (loadMeasureFont parseTTF th.TextBoldFont,
           loadMeasureFont parseTTF th.DefaultTextBoldFont) := by
      simp [lookupStyleFaces, hM, hB, hI]
    rw [hF, htake, hlp]
  · intro hM hB hI
    have hlp : lookupStyleFaces th parseTTF style
        = (loadMeasureFont parseTTF th.TextItalicFont,
           loadMeasureFont parseTTF th.DefaultTextItalicFont) := by
      simp [lookupStyleFaces, hM, hB, hI]
    rw [hF, htake, hlp]
  · intro hM hB hI hS
    have hlp : lookupStyleFaces th parseTTF style
        = (loadMeasureFont parseTTF th.SymbolFont,
           loadMeasureFont parseTTF th.DefaultSymbolFont) := by
      simp [lookupStyleFaces, hM, hB, hI, hS]
    rw [hF, htake, hlp]
  · intro hM hB hI hS
    have hlp : lookupStyleFaces th parseTTF style
        = (loadMeasureFont parseTTF th.TextFont,
           loadMeasureFont parseTTF th.DefaultTextFont) := by
      simp [lookupStyleFaces, hM, hB, hI, hS]
    rw [hF, htake, hlp]

-- Witness for C7: the Monospace + Bold style loads the monospace category's
-- resources 8 and 9 of the concrete theme, not the bold category's 2 and 3.
theorem c7_witness :
    ((fun _ => (none : Option (FontCacheItem ℕ))) styleMB = none)
    ∧ styleMB.Monospace = true
    ∧ (CachedFontFace th0 some (fun _ => none) styleMB).1.Fonts.take 2
        = [some 8, some 9] := by
  refine ⟨rfl, rfl, ?_⟩
  have h := (c7_category_precedence th0 some (fun _ => none) styleMB rfl).1 rfl
  rw [h]
  decide

/-- Claim C10: on a cache miss the face set has a fixed shape: length 2
without an emoji font and length 3 with one; index 1 always holds the load
result of the matched category's built-in default resource; index 0 equals
the primary face when it loaded and the same default otherwise; the emoji
face, when supplied, is always last. -/
theorem c10_face_set_shape {R F : Type} (th : Theme R) (parseTTF : R → Option F)
    (fontCache : TextStyle → Option (FontCacheItem F)) (style : TextStyle)
    (hmiss : fontCache style = none) :
    (th.DefaultEmojiFont = none →
      (CachedFontFace th parseTTF fontCache style).1.Fonts.length = 2)
    ∧ (∀ e, th.DefaultEmojiFont = some e →
      (CachedFontFace th parseTTF fontCache style).1.Fonts.length = 3
      ∧ (CachedFontFace th parseTTF fontCache style).1.Fonts.getLast?
          = some (loadMeasureFont parseTTF e))
    ∧ (CachedFontFace th parseTTF fontCache style).1.Fonts[1]?
        = some (lookupStyleFaces th parseTTF style).2
    ∧ (CachedFontFace th parseTTF fontCache style).1.Fonts[0]?
        = some (if (lookupStyleFaces th parseTTF style).1.isNone
                 then (lookupStyleFaces th parseTTF style).2
                 else (lookupStyleFaces th parseTTF style).1) := by
  have hF := cachedFontFace_fonts_eq th parseTTF fontCache style hmiss
  refine ⟨?_, ?_, ?_, ?_⟩
  · intro he
    rw [hF, he]
    rfl
  · intro e he
    rw [hF, he]
    exact ⟨rfl, rfl⟩
  · rw [hF]
    cases th.DefaultEmojiFont <;> rfl
  · rw [hF]
    cases th.DefaultEmojiFont <;> rfl

-- Witness for C10: the concrete theme without an emoji font yields a
-- two-face set; with emoji resource 12 it yields three faces ending in the
-- emoji face.
theorem c10_witness :
    ((fun _ => (none : Option (FontCacheItem ℕ))) style0 = none)
    ∧ (CachedFontFace th0 some (fun _ => none) style0).1.Fonts.length = 2
    ∧ (CachedFontFace th1 some (fun _ => none) style0).1.Fonts.length = 3
    ∧ (CachedFontFace th1 some (fun _ => none) style0).1.Fonts.getLast?
        = some (some 12) := by
  refine ⟨rfl, ?_, ?_, ?_⟩
  · exact (c10_face_set_shape th0 some (fun _ => none) style0 rfl).1 rfl
  · exact ((c10_face_set_shape th1 some (fun _ => none) style0 rfl).2.1 12 rfl).1
  · have h := ((c10_face_set_shape th1 some (fun _ => none) style0 rfl).2.1 12 rfl).2
    rw [h]
    rfl

end Painter
